import Mathlib

/-!
Verification of the dash-trueTOL dashboard (src/app_tol.py).

The program loads a CSV of telecom metrics, derives per-row normalized
factors and a weighted "Potential Score", and serves four Dash callbacks
that filter the in-memory dataframe.  Numeric columns are embedded as
rationals (`ℚ`, exact for the dataset's small decimals); the score
pipeline exists in two layers: a ℚ layer (where ℚ's total x/0 = 0
appears identically on both sides of the per-row formula identity) and
an `FVal` float layer that keeps the program's degenerate behaviour
(0/0 = NaN, x/0 = ±inf, NaN propagation, NaN-skipping max), used to
settle the zero-denominator cases.  In the filter layer a numeric cell
is `Option ℚ`, `none` modelling a float NaN cell (every comparison
against NaN is false, as in pandas).  Strings stay `String`.
-/

/-- One input row of the dataset, restricted to the columns the score
block (app_tol.py lines 25-46) reads.  Numeric columns are rationals. -/
structure Row where
  province : String
  district : String
  subdistrict : String
  happyBlock : String
  household : ℚ
  install : ℚ
  churn : ℚ
  portUse : ℚ
  marketShareTrue : ℚ
  trueSpeed : String
  netAdd : ℚ
  deriving DecidableEq

/-- `pandas.Series.max` over a column: the greatest element of a nonempty
list (0 for the empty list, which the claims' hypotheses rule out). -/
def maxQ : List ℚ → ℚ
  | [] => 0
  | a :: t => t.foldl max a

/-- First whitespace-delimited token of a string: Python `x.split()[0]`
(leading whitespace skipped, token runs to the next whitespace). -/
def firstTok (s : String) : String :=
  String.mk ((s.toList.dropWhile Char.isWhitespace).takeWhile (fun c => !c.isWhitespace))

/-- Value of a run of decimal digits. -/
def digitsVal (l : List Char) : ℕ :=
  l.foldl (fun acc c => acc * 10 + (c.toNat - 48)) 0

/-- Scanned shape of a decimal literal: sign, integer-part value,
fractional-part value and its digit count. -/
structure DecTok where
  neg : Bool
  intVal : ℕ
  fracVal : ℕ
  fracLen : ℕ
  deriving DecidableEq

/-- Scanner of Python `float` on a plain decimal literal: optional sign,
integer digits, optional fractional part (at least one digit overall);
other inputs fail, as `float` raises ValueError.  (Exponents, inf/nan
and underscores are outside the dataset's speed format and not
modelled.) -/
def scanDec? (s : String) : Option DecTok :=
  let l := s.toList
  let neg : Bool := l.head? = some '-'
  let l' := if l.head? = some '-' ∨ l.head? = some '+' then l.tail else l
  let intPart := l'.takeWhile Char.isDigit
  let rest := l'.dropWhile Char.isDigit
  match rest with
  | [] =>
      if intPart.isEmpty then none
      else some ⟨neg, digitsVal intPart, 0, 0⟩
  | '.' :: frac =>
      if frac.all Char.isDigit && !(intPart.isEmpty && frac.isEmpty) then
        some ⟨neg, digitsVal intPart, digitsVal frac, frac.length⟩
      else none
  | _ => none

/-- Rational value of a scanned decimal literal. -/
def DecTok.toRat (t : DecTok) : ℚ :=
  (if t.neg then -1 else 1) * ((t.intVal : ℚ) + (t.fracVal : ℚ) / 10 ^ t.fracLen)

/-- Python `float` on a plain decimal literal, as a rational. -/
def parseDec? (s : String) : Option ℚ :=
  (scanDec? s).map DecTok.toRat

/-- app_tol.py line 34: `float(x.split()[0]) / 1000` (the `S` column);
`getD 0` is only reached when the parse failed, in which case the whole
preprocessing block aborts (see `scoreCalc`). -/
def speedS (s : String) : ℚ :=
  ((parseDec? (firstTok s)).getD 0) / 1000

/-- app_tol.py line 32: `1 - (Churn / Port Use).clip(upper=1)`
(`clip(upper=1)` is `min · 1`). -/
def churnFactor (churn portUse : ℚ) : ℚ :=
  1 - min (churn / portUse) 1

/-- The five weights W1..W5 of app_tol.py line 25. -/
def W1 : ℚ := 0.40
/-- Weight of `I`. -/
def W2 : ℚ := 0.25
/-- Weight of `1-C`. -/
def W3 : ℚ := 0.20
/-- Weight of `M`. -/
def W4 : ℚ := 0.05
/-- Weight of `S`. -/
def W5 : ℚ := 0.10

/-- app_tol.py line 30: `H = Household / Household.max()`, the maximum
taken over the whole collection. -/
def subH (ds : List Row) (r : Row) : ℚ :=
  r.household / maxQ (ds.map Row.household)

/-- app_tol.py line 31: `I = Install / Install.max()`. -/
def subI (ds : List Row) (r : Row) : ℚ :=
  r.install / maxQ (ds.map Row.install)

/-- app_tol.py line 33: `M = Market Share True (%) / its max`. -/
def subM (ds : List Row) (r : Row) : ℚ :=
  r.marketShareTrue / maxQ (ds.map Row.marketShareTrue)

/-- app_tol.py lines 37-43: the raw weighted sum first stored in the
`Potential Score` column. -/
def rawScore (ds : List Row) (r : Row) : ℚ :=
  W1 * subH ds r + W2 * subI ds r + W3 * churnFactor r.churn r.portUse +
    W4 * subM ds r + W5 * speedS r.trueSpeed

/-- Maximum of the raw-score column (`data['Potential Score'].max()` at
line 46, before the overwrite). -/
def maxRaw (ds : List Row) : ℚ :=
  maxQ (ds.map (rawScore ds))

/-- app_tol.py line 46: the final normalized score. -/
def potential (ds : List Row) (r : Row) : ℚ :=
  rawScore ds r / maxRaw ds * 100

/-- A row after the preprocessing pass: the original row plus the five
derived columns and the final `Potential Score`. -/
structure Scored where
  base : Row
  H : ℚ
  I : ℚ
  oneC : ℚ
  M : ℚ
  S : ℚ
  pscore : ℚ
  deriving DecidableEq

/-- The whole preprocessing block (app_tol.py lines 28-50): derives the
five factor columns and the normalized score.  Any speed cell that
Python `float` would reject raises inside the `try`, so the block ends
in `exit()`: modelled by `none`. -/
def scoreCalc (ds : List Row) : Option (List Scored) :=
  if ds.all (fun r => (parseDec? (firstTok r.trueSpeed)).isSome) then
    some (ds.map (fun r =>
      { base := r, H := subH ds r, I := subI ds r,
        oneC := churnFactor r.churn r.portUse, M := subM ds r,
        S := speedS r.trueSpeed, pscore := potential ds r }))
  else none

/-- Written from the spec's words (§3 Derived fields): the raw potential
score 0.40·H + 0.25·I + 0.20·(1−C) + 0.05·M + 0.10·S with each factor's
denominator the collection-wide maximum. -/
def specRaw (ds : List Row) (r : Row) : ℚ :=
  0.40 * (r.household / maxQ (ds.map Row.household)) +
    0.25 * (r.install / maxQ (ds.map Row.install)) +
    0.20 * (1 - min (r.churn / r.portUse) 1) +
    0.05 * (r.marketShareTrue / maxQ (ds.map Row.marketShareTrue)) +
    0.10 * (((parseDec? (firstTok r.trueSpeed)).getD 0) / 1000)

/-- Written from the spec's words: final score = raw / max(raw) × 100. -/
def specFinal (ds : List Row) (r : Row) : ℚ :=
  specRaw ds r / maxQ (ds.map (specRaw ds)) * 100

theorem rawScore_eq_specRaw (ds : List Row) (r : Row) :
    rawScore ds r = specRaw ds r := rfl

theorem potential_eq_specFinal (ds : List Row) (r : Row) :
    potential ds r = specFinal ds r := by
  unfold potential specFinal maxRaw
  have h : rawScore ds = specRaw ds := funext (rawScore_eq_specRaw ds)
  rw [h]

theorem scoreCalc_eq_some {ds : List Row} {out : List Scored}
    (h : scoreCalc ds = some out) :
    out = ds.map (fun r =>
      { base := r, H := subH ds r, I := subI ds r,
        oneC := churnFactor r.churn r.portUse, M := subM ds r,
        S := speedS r.trueSpeed, pscore := potential ds r }) := by
  unfold scoreCalc at h
  split at h
  · exact (Option.some_inj.mp h).symm
  · exact absurd h (by simp)

/-- Claim C1: for every loaded dataset, each row's raw potential score is
0.40·H + 0.25·I + 0.20·(1−C) + 0.05·M + 0.10·S with every maximum taken
over the entire collection before any per-row division, and the final
Potential Score is the raw score divided by the maximum raw score, times
100. -/
theorem C1_score_formula (ds : List Row) (out : List Scored)
    (h : scoreCalc ds = some out) :
    out.map Scored.pscore = ds.map (specFinal ds) := by
  rw [scoreCalc_eq_some h, List.map_map]
  refine List.map_congr_left (fun r _ => ?_)
  exact potential_eq_specFinal ds r

def ds1 : List Row :=
  [{ province := "Songkhla", district := "Mueang", subdistrict := "Bo Yang",
     happyBlock := "HB1", household := 2, install := 1, churn := 1,
     portUse := 2, marketShareTrue := 50, trueSpeed := "1000 Mbps", netAdd := 0 }]

def out1 : List Scored :=
  [{ base := { province := "Songkhla", district := "Mueang", subdistrict := "Bo Yang",
               happyBlock := "HB1", household := 2, install := 1, churn := 1,
               portUse := 2, marketShareTrue := 50, trueSpeed := "1000 Mbps", netAdd := 0 },
     H := 1, I := 1, oneC := 1/2, M := 1, S := 1, pscore := 100 }]

theorem speedS_1000 : speedS "1000 Mbps" = 1 := by
  have h : scanDec? (firstTok "1000 Mbps") = some ⟨false, 1000, 0, 0⟩ := by decide
  rw [speedS, parseDec?, h]
  norm_num [DecTok.toRat]

theorem scoreCalc_ds1_eval : scoreCalc ds1 = some out1 := by
  have hcond : (ds1.all (fun r => (parseDec? (firstTok r.trueSpeed)).isSome)) = true := by
    decide
  unfold scoreCalc
  rw [if_pos hcond]
  norm_num [ds1, out1, subH, subI, subM, churnFactor, potential, rawScore, maxRaw,
    maxQ, W1, W2, W3, W4, W5, min_def, speedS_1000, Scored.mk.injEq]

/-- Witness for C1 at a concrete one-row dataset. -/
theorem C1_score_formula_witness :
    out1.map Scored.pscore = ds1.map (specFinal ds1) :=
  C1_score_formula ds1 out1 scoreCalc_ds1_eval

theorem le_foldl_max (t : List ℚ) (a : ℚ) : a ≤ t.foldl max a := by
  induction t generalizing a with
  | nil => exact le_refl a
  | cons b t ih => exact le_trans (le_max_left a b) (ih (max a b))

theorem mem_le_foldl_max {x : ℚ} (t : List ℚ) (a : ℚ) (hx : x ∈ t) :
    x ≤ t.foldl max a := by
  induction t generalizing a with
  | nil => cases hx
  | cons b t ih =>
    rcases List.mem_cons.mp hx with h | h
    · subst h
      exact le_trans (le_max_right a x) (le_foldl_max t (max a x))
    · exact ih (max a b) h

theorem le_maxQ {l : List ℚ} {x : ℚ} (hx : x ∈ l) : x ≤ maxQ l := by
  cases l with
  | nil => cases hx
  | cons a t =>
    rcases List.mem_cons.mp hx with h | h
    · subst h; exact le_foldl_max t x
    · exact mem_le_foldl_max t a h

theorem foldl_max_mem (t : List ℚ) (a : ℚ) : t.foldl max a = a ∨ t.foldl max a ∈ t := by
  induction t generalizing a with
  | nil => exact Or.inl rfl
  | cons b t ih =>
    rcases ih (max a b) with h | h
    · rcases max_choice a b with hm | hm
      · exact Or.inl (by rw [List.foldl_cons, h, hm])
      · refine Or.inr ?_
        rw [List.foldl_cons, h, hm]
        exact List.mem_cons_self b t
    · exact Or.inr (List.mem_cons_of_mem b h)

theorem maxQ_mem {l : List ℚ} (h : l ≠ []) : maxQ l ∈ l := by
  cases l with
  | nil => exact absurd rfl h
  | cons a t =>
    rcases foldl_max_mem t a with hm | hm
    · rw [maxQ, hm]; exact List.mem_cons_self a t
    · exact List.mem_cons_of_mem a hm

theorem maxQ_nonneg {l : List ℚ} (h : ∀ x ∈ l, 0 ≤ x) : 0 ≤ maxQ l := by
  cases l with
  | nil => exact le_refl 0
  | cons a t =>
    exact le_trans (h a (List.mem_cons_self a t)) (le_foldl_max t a)

theorem churnFactor_nonneg (churn portUse : ℚ) : 0 ≤ churnFactor churn portUse := by
  have := min_le_right (churn / portUse) 1
  rw [churnFactor]; linarith

theorem rawScore_nonneg {ds : List Row} {r : Row} (hr : r ∈ ds)
    (hH : ∀ x ∈ ds, 0 ≤ x.household) (hI : ∀ x ∈ ds, 0 ≤ x.install)
    (hM : ∀ x ∈ ds, 0 ≤ x.marketShareTrue)
    (hS : ∀ x ∈ ds, 0 ≤ speedS x.trueSpeed) :
    0 ≤ rawScore ds r := by
  have hmH : 0 ≤ maxQ (ds.map Row.household) := by
    refine maxQ_nonneg (fun x hx => ?_)
    obtain ⟨r', hr', rfl⟩ := List.mem_map.mp hx
    exact hH r' hr'
  have hmI : 0 ≤ maxQ (ds.map Row.install) := by
    refine maxQ_nonneg (fun x hx => ?_)
    obtain ⟨r', hr', rfl⟩ := List.mem_map.mp hx
    exact hI r' hr'
  have hmM : 0 ≤ maxQ (ds.map Row.marketShareTrue) := by
    refine maxQ_nonneg (fun x hx => ?_)
    obtain ⟨r', hr', rfl⟩ := List.mem_map.mp hx
    exact hM r' hr'
  have h1 : 0 ≤ subH ds r := div_nonneg (hH r hr) hmH
  have h2 : 0 ≤ subI ds r := div_nonneg (hI r hr) hmI
  have h3 : 0 ≤ churnFactor r.churn r.portUse := churnFactor_nonneg _ _
  have h4 : 0 ≤ subM ds r := div_nonneg (hM r hr) hmM
  have h5 : 0 ≤ speedS r.trueSpeed := hS r hr
  have w1 : (0:ℚ) ≤ W1 := by norm_num [W1]
  have w2 : (0:ℚ) ≤ W2 := by norm_num [W2]
  have w3 : (0:ℚ) ≤ W3 := by norm_num [W3]
  have w4 : (0:ℚ) ≤ W4 := by norm_num [W4]
  have w5 : (0:ℚ) ≤ W5 := by norm_num [W5]
  rw [rawScore]
  have := mul_nonneg w1 h1
  have := mul_nonneg w2 h2
  have := mul_nonneg w3 h3
  have := mul_nonneg w4 h4
  have := mul_nonneg w5 h5
  linarith

/-- A float value as pandas computes with it: NaN, the two infinities,
or a finite value (exact here, since the dataset's decimals are small).
The ℚ layer above totalizes x/0 to 0; this layer keeps the program's
real degenerate behaviour (0/0 = NaN, x/0 = ±inf, NaN propagation). -/
inductive FVal where
  | nan
  | inf
  | ninf
  | fin (q : ℚ)
  deriving DecidableEq

/-- Float addition: NaN propagates, inf + (-inf) is NaN. -/
def addF : FVal → FVal → FVal
  | .nan, _ => .nan
  | _, .nan => .nan
  | .inf, .ninf => .nan
  | .ninf, .inf => .nan
  | .inf, _ => .inf
  | _, .inf => .inf
  | .ninf, _ => .ninf
  | _, .ninf => .ninf
  | .fin a, .fin b => .fin (a + b)

/-- Float division: NaN propagates, 0/0 and inf/inf are NaN, a nonzero
finite value divided by zero is a signed infinity. -/
def divF : FVal → FVal → FVal
  | .nan, _ => .nan
  | _, .nan => .nan
  | .inf, .inf => .nan
  | .inf, .ninf => .nan
  | .ninf, .inf => .nan
  | .ninf, .ninf => .nan
  | .inf, .fin q => if q < 0 then .ninf else .inf
  | .ninf, .fin q => if q < 0 then .inf else .ninf
  | .fin _, .inf => .fin 0
  | .fin _, .ninf => .fin 0
  | .fin a, .fin b =>
      if b = 0 then (if a = 0 then .nan else if a < 0 then .ninf else .inf)
      else .fin (a / b)

/-- Multiplication by a finite scalar (the weights and the final 100):
NaN propagates, 0·inf is NaN, otherwise the sign rules. -/
def wmul (w : ℚ) : FVal → FVal
  | .nan => .nan
  | .inf => if w = 0 then .nan else if w < 0 then .ninf else .inf
  | .ninf => if w = 0 then .nan else if w < 0 then .inf else .ninf
  | .fin q => .fin (w * q)

/-- `1 - v` in the float domain. -/
def rsub1 : FVal → FVal
  | .nan => .nan
  | .inf => .ninf
  | .ninf => .inf
  | .fin q => .fin (1 - q)

/-- `Series.clip(upper=1)`: NaN stays NaN, +inf clips to 1. -/
def clipUpper1 : FVal → FVal
  | .nan => .nan
  | .inf => .fin 1
  | .ninf => .ninf
  | .fin q => .fin (min q 1)

/-- One step of `Series.max()` with skipna=True: NaN operands are
skipped; among the rest, the larger wins. -/
def max2 : FVal → FVal → FVal
  | .nan, v => v
  | v, .nan => v
  | .inf, _ => .inf
  | _, .inf => .inf
  | .ninf, v => v
  | v, .ninf => v
  | .fin a, .fin b => .fin (max a b)

/-- `Series.max()` (skipna): NaN on an empty or all-NaN column. -/
def maxF (l : List FVal) : FVal :=
  l.foldl max2 .nan

/-- app_tol.py line 30 in the float domain. -/
def subHF (ds : List Row) (r : Row) : FVal :=
  divF (FVal.fin r.household) (maxF (ds.map (fun x => FVal.fin x.household)))

/-- app_tol.py line 31 in the float domain. -/
def subIF (ds : List Row) (r : Row) : FVal :=
  divF (FVal.fin r.install) (maxF (ds.map (fun x => FVal.fin x.install)))

/-- app_tol.py line 33 in the float domain. -/
def subMF (ds : List Row) (r : Row) : FVal :=
  divF (FVal.fin r.marketShareTrue) (maxF (ds.map (fun x => FVal.fin x.marketShareTrue)))

/-- app_tol.py line 32 in the float domain. -/
def churnFF (r : Row) : FVal :=
  rsub1 (clipUpper1 (divF (FVal.fin r.churn) (FVal.fin r.portUse)))

/-- app_tol.py line 34 in the float domain (finite whenever the parse
succeeded). -/
def sF (r : Row) : FVal :=
  FVal.fin (speedS r.trueSpeed)

/-- app_tol.py lines 37-43 in the float domain. -/
def rawF (ds : List Row) (r : Row) : FVal :=
  addF (addF (addF (addF (wmul W1 (subHF ds r)) (wmul W2 (subIF ds r)))
    (wmul W3 (churnFF r))) (wmul W4 (subMF ds r))) (wmul W5 (sF r))

/-- `data['Potential Score'].max()` at line 46, float domain. -/
def maxRawF (ds : List Row) : FVal :=
  maxF (ds.map (rawF ds))

/-- app_tol.py line 46 in the float domain. -/
def potentialF (ds : List Row) (r : Row) : FVal :=
  wmul 100 (divF (rawF ds r) (maxRawF ds))

/-- The preprocessing block in the float domain (same abort behaviour
on a bad speed cell as `scoreCalc`). -/
def scoreCalcF (ds : List Row) : Option (List FVal) :=
  if ds.all (fun r => (parseDec? (firstTok r.trueSpeed)).isSome) then
    some (ds.map (potentialF ds))
  else none

/-- A float value lies in [0,100]: it is finite and between the
bounds (NaN and the infinities never are, as every float comparison
with NaN is false). -/
def inRange100 (v : FVal) : Prop :=
  ∃ q : ℚ, v = FVal.fin q ∧ 0 ≤ q ∧ q ≤ 100

theorem scoreCalcF_eq_some {ds : List Row} {out : List FVal}
    (h : scoreCalcF ds = some out) :
    out = ds.map (potentialF ds) := by
  unfold scoreCalcF at h
  split at h
  · exact (Option.some_inj.mp h).symm
  · exact absurd h (by simp)

theorem foldl_max2_fin (l : List ℚ) (a : ℚ) :
    (l.map FVal.fin).foldl max2 (FVal.fin a) = FVal.fin (l.foldl max a) := by
  induction l generalizing a with
  | nil => rfl
  | cons b t ih =>
    simp only [List.map_cons, List.foldl_cons]
    rw [show max2 (FVal.fin a) (FVal.fin b) = FVal.fin (max a b) from rfl]
    exact ih (max a b)

theorem maxF_map_fin (l : List ℚ) (hne : l ≠ []) :
    maxF (l.map FVal.fin) = FVal.fin (maxQ l) := by
  cases l with
  | nil => exact absurd rfl hne
  | cons a t =>
    show ((a :: t).map FVal.fin).foldl max2 FVal.nan = FVal.fin (maxQ (a :: t))
    simp only [List.map_cons, List.foldl_cons]
    rw [show max2 FVal.nan (FVal.fin a) = FVal.fin a from rfl]
    exact foldl_max2_fin t a

theorem divF_fin (a b : ℚ) (hb : b ≠ 0) :
    divF (FVal.fin a) (FVal.fin b) = FVal.fin (a / b) := by
  simp [divF, hb]

theorem divF_maxF_fin (ds : List Row) (f : Row → ℚ) (x : ℚ) (hne : ds ≠ [])
    (hm : maxQ (ds.map f) ≠ 0) :
    divF (FVal.fin x) (maxF (ds.map (fun r => FVal.fin (f r)))) =
      FVal.fin (x / maxQ (ds.map f)) := by
  have h1 : ds.map (fun r => FVal.fin (f r)) = (ds.map f).map FVal.fin := by
    rw [List.map_map]
    rfl
  rw [h1, maxF_map_fin _ (fun hcon => hne (List.map_eq_nil_iff.mp hcon)),
    divF_fin _ _ hm]

theorem subHF_eq_fin (ds : List Row) (r : Row) (hne : ds ≠ [])
    (hm : maxQ (ds.map Row.household) ≠ 0) :
    subHF ds r = FVal.fin (subH ds r) :=
  divF_maxF_fin ds Row.household r.household hne hm

theorem subIF_eq_fin (ds : List Row) (r : Row) (hne : ds ≠ [])
    (hm : maxQ (ds.map Row.install) ≠ 0) :
    subIF ds r = FVal.fin (subI ds r) :=
  divF_maxF_fin ds Row.install r.install hne hm

theorem subMF_eq_fin (ds : List Row) (r : Row) (hne : ds ≠ [])
    (hm : maxQ (ds.map Row.marketShareTrue) ≠ 0) :
    subMF ds r = FVal.fin (subM ds r) :=
  divF_maxF_fin ds Row.marketShareTrue r.marketShareTrue hne hm

theorem churnFF_eq_fin (r : Row) (hp : r.portUse ≠ 0) :
    churnFF r = FVal.fin (churnFactor r.churn r.portUse) := by
  unfold churnFF churnFactor
  rw [divF_fin _ _ hp]
  rfl

theorem rawF_eq_fin (ds : List Row) (r : Row) (hne : ds ≠ [])
    (hmH : maxQ (ds.map Row.household) ≠ 0)
    (hmI : maxQ (ds.map Row.install) ≠ 0)
    (hmM : maxQ (ds.map Row.marketShareTrue) ≠ 0)
    (hp : r.portUse ≠ 0) :
    rawF ds r = FVal.fin (rawScore ds r) := by
  unfold rawF
  rw [subHF_eq_fin ds r hne hmH, subIF_eq_fin ds r hne hmI,
    subMF_eq_fin ds r hne hmM, churnFF_eq_fin r hp]
  rfl

theorem maxRawF_eq_fin (ds : List Row) (hne : ds ≠ [])
    (hmH : maxQ (ds.map Row.household) ≠ 0)
    (hmI : maxQ (ds.map Row.install) ≠ 0)
    (hmM : maxQ (ds.map Row.marketShareTrue) ≠ 0)
    (hpAll : ∀ x ∈ ds, x.portUse ≠ 0) :
    maxRawF ds = FVal.fin (maxRaw ds) := by
  unfold maxRawF maxRaw
  have h1 : ds.map (rawF ds) = (ds.map (rawScore ds)).map FVal.fin := by
    rw [List.map_map]
    exact List.map_congr_left (fun x hx =>
      rawF_eq_fin ds x hne hmH hmI hmM (hpAll x hx))
  rw [h1, maxF_map_fin _ (fun hcon => hne (List.map_eq_nil_iff.mp hcon))]

theorem potentialF_eq_fin (ds : List Row) (r : Row) (hne : ds ≠ [])
    (hmH : maxQ (ds.map Row.household) ≠ 0)
    (hmI : maxQ (ds.map Row.install) ≠ 0)
    (hmM : maxQ (ds.map Row.marketShareTrue) ≠ 0)
    (hpAll : ∀ x ∈ ds, x.portUse ≠ 0)
    (hp : r.portUse ≠ 0) (hmraw : maxRaw ds ≠ 0) :
    potentialF ds r = FVal.fin (potential ds r) := by
  unfold potentialF
  rw [rawF_eq_fin ds r hne hmH hmI hmM hp,
    maxRawF_eq_fin ds hne hmH hmI hmM hpAll, divF_fin _ _ hmraw]
  show FVal.fin (100 * (rawScore ds r / maxRaw ds)) =
    FVal.fin (rawScore ds r / maxRaw ds * 100)
  rw [mul_comm]

def rC : Row :=
  { province := "Songkhla", district := "Mueang", subdistrict := "Phawong",
    happyBlock := "HB3", household := 0, install := 1, churn := 0,
    portUse := 1, marketShareTrue := 1, trueSpeed := "1000 Mbps", netAdd := 0 }

def dsC : List Row := [rC]

theorem rawF_dsC_eval : rawF dsC rC = FVal.nan := by
  have hmax : maxF (dsC.map (fun x => FVal.fin x.household)) = FVal.fin 0 := rfl
  have hsub : subHF dsC rC = FVal.nan := by
    unfold subHF
    rw [hmax]
    show divF (FVal.fin 0) (FVal.fin 0) = FVal.nan
    simp [divF]
  unfold rawF
  rw [hsub]
  rfl

/-- Counterexample to C2 as stated: a one-row dataset satisfying every
hypothesis of the claim (all inputs non-negative, raw score not zero —
it is NaN), on which the program's Potential Score is NaN: max(Household)
is 0, so H = 0/0 = NaN and NaN propagates to the final column, which
therefore neither lies in [0,100] nor ever equals 100. -/
theorem C2_score_bounds_counterexample :
    (∀ r ∈ dsC, 0 ≤ r.household ∧ 0 ≤ r.install ∧ 0 ≤ r.churn ∧ 0 ≤ r.portUse ∧
        0 ≤ r.marketShareTrue ∧ 0 ≤ speedS r.trueSpeed) ∧
      ¬ (∀ r ∈ dsC, rawF dsC r = FVal.fin 0) ∧
      scoreCalcF dsC = some [FVal.nan] ∧
      ¬ (∀ v ∈ [FVal.nan], inRange100 v) ∧
      ¬ ∃ v ∈ [FVal.nan], v = FVal.fin 100 := by
  refine ⟨?_, ?_, ?_, ?_, ?_⟩
  · intro r hr
    simp [dsC] at hr
    subst hr
    refine ⟨by norm_num [rC], by norm_num [rC], by norm_num [rC], by norm_num [rC],
      by norm_num [rC], ?_⟩
    show 0 ≤ speedS rC.trueSpeed
    have h : rC.trueSpeed = "1000 Mbps" := rfl
    rw [h, speedS_1000]
    norm_num
  · intro hall
    have h := hall rC (by simp [dsC])
    rw [rawF_dsC_eval] at h
    exact FVal.noConfusion h
  · have hcond : (dsC.all (fun r => (parseDec? (firstTok r.trueSpeed)).isSome)) = true := by
      decide
    unfold scoreCalcF
    rw [if_pos hcond]
    have h : potentialF dsC rC = FVal.nan := by
      unfold potentialF
      rw [rawF_dsC_eval]
      rfl
    show some (dsC.map (potentialF dsC)) = some [FVal.nan]
    rw [show dsC.map (potentialF dsC) = [potentialF dsC rC] from rfl, h]
  · intro hall
    obtain ⟨q, hq, _⟩ := hall FVal.nan (by simp)
    exact FVal.noConfusion hq
  · rintro ⟨v, hv, hfin⟩
    simp at hv
    subst hv
    exact FVal.noConfusion hfin

/-- Claim C2 (amended): the invariant additionally needs every
normalization denominator non-degenerate — some Household, some
Install and some Market Share True positive, and every Port Use
positive — since a zero denominator makes the program's float
computation produce NaN; then every final Potential Score is finite in
[0, 100] and at least one row scores exactly 100. -/
theorem C2_score_bounds (ds : List Row) (out : List FVal)
    (hok : scoreCalcF ds = some out)
    (hH : ∀ r ∈ ds, 0 ≤ r.household) (hI : ∀ r ∈ ds, 0 ≤ r.install)
    (_hC : ∀ r ∈ ds, 0 ≤ r.churn) (hP : ∀ r ∈ ds, 0 < r.portUse)
    (hM : ∀ r ∈ ds, 0 ≤ r.marketShareTrue)
    (hS : ∀ r ∈ ds, 0 ≤ speedS r.trueSpeed)
    (hHpos : ∃ r ∈ ds, 0 < r.household)
    (hIpos : ∃ r ∈ ds, 0 < r.install)
    (hMpos : ∃ r ∈ ds, 0 < r.marketShareTrue)
    (hnz : ¬ ∀ r ∈ ds, rawF ds r = FVal.fin 0) :
    (∀ v ∈ out, inRange100 v) ∧ ∃ v ∈ out, v = FVal.fin 100 := by
  obtain ⟨ra, hra, hrapos⟩ := hHpos
  obtain ⟨rb, hrb, hrbpos⟩ := hIpos
  obtain ⟨rc, hrc, hrcpos⟩ := hMpos
  have hne : ds ≠ [] := by
    intro hcon
    subst hcon
    cases hra
  have hmH : maxQ (ds.map Row.household) ≠ 0 :=
    ne_of_gt (lt_of_lt_of_le hrapos (le_maxQ (List.mem_map_of_mem Row.household hra)))
  have hmI : maxQ (ds.map Row.install) ≠ 0 :=
    ne_of_gt (lt_of_lt_of_le hrbpos (le_maxQ (List.mem_map_of_mem Row.install hrb)))
  have hmM : maxQ (ds.map Row.marketShareTrue) ≠ 0 :=
    ne_of_gt (lt_of_lt_of_le hrcpos (le_maxQ (List.mem_map_of_mem Row.marketShareTrue hrc)))
  have hpAll : ∀ x ∈ ds, x.portUse ≠ 0 := fun x hx => ne_of_gt (hP x hx)
  push_neg at hnz
  obtain ⟨r0, hr0, hr0ne⟩ := hnz
  have hr0ne2 : rawScore ds r0 ≠ 0 := by
    intro hcon
    apply hr0ne
    rw [rawF_eq_fin ds r0 hne hmH hmI hmM (hpAll r0 hr0), hcon]
  have hraw : ∀ r ∈ ds, 0 ≤ rawScore ds r := fun r hr =>
    rawScore_nonneg hr hH hI hM hS
  have hr0pos : 0 < rawScore ds r0 := lt_of_le_of_ne (hraw r0 hr0) (Ne.symm hr0ne2)
  have hmax_ge : ∀ r ∈ ds, rawScore ds r ≤ maxRaw ds := fun r hr =>
    le_maxQ (List.mem_map_of_mem (rawScore ds) hr)
  have hmaxpos : 0 < maxRaw ds := lt_of_lt_of_le hr0pos (hmax_ge r0 hr0)
  have hout := scoreCalcF_eq_some hok
  constructor
  · intro v hv
    rw [hout] at hv
    obtain ⟨r, hr, rfl⟩ := List.mem_map.mp hv
    rw [potentialF_eq_fin ds r hne hmH hmI hmM hpAll (hpAll r hr) (ne_of_gt hmaxpos)]
    refine ⟨potential ds r, rfl, ?_, ?_⟩
    · show 0 ≤ rawScore ds r / maxRaw ds * 100
      exact mul_nonneg (div_nonneg (hraw r hr) hmaxpos.le) (by norm_num)
    · show rawScore ds r / maxRaw ds * 100 ≤ 100
      have hle : rawScore ds r / maxRaw ds ≤ 1 :=
        (div_le_one hmaxpos).mpr (hmax_ge r hr)
      calc rawScore ds r / maxRaw ds * 100 ≤ 1 * 100 :=
            mul_le_mul_of_nonneg_right hle (by norm_num)
        _ = 100 := by norm_num
  · have hnem : ds.map (rawScore ds) ≠ [] :=
      fun hcon => hne (List.map_eq_nil_iff.mp hcon)
    obtain ⟨rm, hrm, hrmeq⟩ := List.mem_map.mp (maxQ_mem hnem)
    refine ⟨potentialF ds rm, by rw [hout]; exact List.mem_map_of_mem _ hrm, ?_⟩
    rw [potentialF_eq_fin ds rm hne hmH hmI hmM hpAll (hpAll rm hrm) (ne_of_gt hmaxpos)]
    have hfin : potential ds rm = 100 := by
      rw [potential, maxRaw] at *
      rw [hrmeq, div_self (ne_of_gt hmaxpos)]
      norm_num
    rw [hfin]

def r2 : Row :=
  { province := "Songkhla", district := "Hat Yai", subdistrict := "Kho Hong",
    happyBlock := "HB2", household := 4, install := 2, churn := 0,
    portUse := 1, marketShareTrue := 20, trueSpeed := "500 Mbps", netAdd := -1 }

def ds2 : List Row := [r2]

theorem speedS_500 : speedS "500 Mbps" = 1/2 := by
  have h : scanDec? (firstTok "500 Mbps") = some ⟨false, 500, 0, 0⟩ := by decide
  rw [speedS, parseDec?, h]
  norm_num [DecTok.toRat]

theorem rawScore_ds2_eval : rawScore ds2 r2 = 19/20 := by
  norm_num [ds2, r2, rawScore, subH, subI, subM, churnFactor, maxQ,
    W1, W2, W3, W4, W5, min_def, speedS_500]

theorem potential_ds2_eval : potential ds2 r2 = 100 := by
  norm_num [ds2, r2, potential, rawScore, maxRaw, subH, subI, subM, churnFactor,
    maxQ, W1, W2, W3, W4, W5, min_def, speedS_500]

theorem scoreCalcF_ds2_eval : scoreCalcF ds2 = some [FVal.fin 100] := by
  have hcond : (ds2.all (fun r => (parseDec? (firstTok r.trueSpeed)).isSome)) = true := by
    decide
  unfold scoreCalcF
  rw [if_pos hcond]
  have h : potentialF ds2 r2 = FVal.fin 100 := by
    rw [potentialF_eq_fin ds2 r2 (by simp [ds2]) (by norm_num [ds2, r2, maxQ])
      (by norm_num [ds2, r2, maxQ]) (by norm_num [ds2, r2, maxQ])
      (by intro x hx; simp [ds2] at hx; subst hx; norm_num [r2])
      (by norm_num [r2])
      (by rw [maxRaw, show ds2.map (rawScore ds2) = [rawScore ds2 r2] from rfl,
            rawScore_ds2_eval]; norm_num [maxQ]),
      potential_ds2_eval]
  show some (ds2.map (potentialF ds2)) = some [FVal.fin 100]
  rw [show ds2.map (potentialF ds2) = [potentialF ds2 r2] from rfl, h]

/-- Witness for the amended C2 at a concrete one-row dataset. -/
theorem C2_score_bounds_witness :
    (∀ v ∈ [FVal.fin 100], inRange100 v) ∧ ∃ v ∈ [FVal.fin 100], v = FVal.fin 100 := by
  refine C2_score_bounds ds2 [FVal.fin 100] scoreCalcF_ds2_eval
    ?_ ?_ ?_ ?_ ?_ ?_ ?_ ?_ ?_ ?_
  · intro r hr; simp [ds2] at hr; subst hr; norm_num [r2]
  · intro r hr; simp [ds2] at hr; subst hr; norm_num [r2]
  · intro r hr; simp [ds2] at hr; subst hr; norm_num [r2]
  · intro r hr; simp [ds2] at hr; subst hr; norm_num [r2]
  · intro r hr; simp [ds2] at hr; subst hr; norm_num [r2]
  · intro r hr; simp [ds2] at hr; subst hr
    show 0 ≤ speedS r2.trueSpeed
    have h : r2.trueSpeed = "500 Mbps" := rfl
    rw [h, speedS_500]
    norm_num
  · exact ⟨r2, by simp [ds2], by norm_num [r2]⟩
  · exact ⟨r2, by simp [ds2], by norm_num [r2]⟩
  · exact ⟨r2, by simp [ds2], by norm_num [r2]⟩
  · intro hall
    have h := hall r2 (by simp [ds2])
    rw [rawF_eq_fin ds2 r2 (by simp [ds2]) (by norm_num [ds2, r2, maxQ])
      (by norm_num [ds2, r2, maxQ]) (by norm_num [ds2, r2, maxQ]) (by norm_num [r2]),
      rawScore_ds2_eval] at h
    have := FVal.fin.inj h
    norm_num at this

/-- Claim C6: for non-negative Churn and positive Port Use the derived
(1−C) factor is 1 minus the Churn/Port-Use ratio capped at 1.0; a row
with Churn > Port Use yields (1−C) = 0, and the factor is never
negative. -/
theorem C6_churn_clip (churn portUse : ℚ) (_hc : 0 ≤ churn) (hp : 0 < portUse) :
    churnFactor churn portUse = 1 - min (churn / portUse) 1 ∧
      (portUse < churn → churnFactor churn portUse = 0) ∧
      0 ≤ churnFactor churn portUse := by
  refine ⟨rfl, ?_, churnFactor_nonneg _ _⟩
  intro hlt
  have h1 : (1:ℚ) < churn / portUse := (one_lt_div hp).mpr hlt
  rw [churnFactor, min_eq_right h1.le]
  ring

/-- Witness for C6 at Churn = 5, Port Use = 2. -/
theorem C6_churn_clip_witness :
    churnFactor 5 2 = 1 - min ((5:ℚ) / 2) 1 ∧
      ((2:ℚ) < 5 → churnFactor 5 2 = 0) ∧
      0 ≤ churnFactor 5 2 :=
  C6_churn_clip 5 2 (by norm_num) (by norm_num)

theorem dropWhile_append_nonws (l u : List Char) (hne : l ≠ [])
    (hl : l.all (fun c => !c.isWhitespace) = true) :
    (l ++ u).dropWhile Char.isWhitespace = l ++ u := by
  cases l with
  | nil => exact absurd rfl hne
  | cons a t =>
    simp only [List.all_cons, Bool.and_eq_true, Bool.not_eq_eq_eq_not, Bool.not_true] at hl
    simp [List.dropWhile_cons, hl.1]

theorem takeWhile_append_nonws (l u : List Char) (b : Char)
    (hl : l.all (fun c => !c.isWhitespace) = true) (hb : b.isWhitespace = true) :
    (l ++ b :: u).takeWhile (fun c => !c.isWhitespace) = l := by
  induction l with
  | nil => simp [List.takeWhile_cons, hb]
  | cons a t ih =>
    simp only [List.all_cons, Bool.and_eq_true, Bool.not_eq_eq_eq_not, Bool.not_true] at hl
    simp [List.takeWhile_cons, hl.1, ih hl.2]

theorem firstTok_append (num u : String) (hne : num.toList ≠ [])
    (hws : num.toList.all (fun c => !c.isWhitespace) = true) :
    firstTok (num ++ " " ++ u) = num := by
  have hdata : (num ++ " " ++ u).toList = num.toList ++ ' ' :: u.toList := by
    show (num ++ " " ++ u).data = num.data ++ ' ' :: u.data
    rw [String.data_append, String.data_append, List.append_assoc]
    congr 1
  rw [firstTok, hdata, dropWhile_append_nonws _ _ hne hws,
    takeWhile_append_nonws _ _ _ hws (by decide)]
  cases num
  rfl

/-- Claim C7: S is the leading whitespace-delimited token of True Speed,
parsed as a decimal number and divided by 1000, everything after the
first whitespace being ignored; "850 Mbps" gives 0.85 and "1200 Mbps"
gives 1.2. -/
theorem C7_speed_parse (num u : String) (q : ℚ)
    (hne : num.toList ≠ [])
    (hws : num.toList.all (fun c => !c.isWhitespace) = true)
    (hq : parseDec? num = some q) :
    speedS (num ++ " " ++ u) = q / 1000 ∧
      speedS "850 Mbps" = 0.85 ∧ speedS "1200 Mbps" = 1.2 := by
  refine ⟨?_, ?_, ?_⟩
  · rw [speedS, firstTok_append num u hne hws, hq]
    rfl
  · have h : scanDec? (firstTok "850 Mbps") = some ⟨false, 850, 0, 0⟩ := by decide
    rw [speedS, parseDec?, h]
    norm_num [DecTok.toRat]
  · have h : scanDec? (firstTok "1200 Mbps") = some ⟨false, 1200, 0, 0⟩ := by decide
    rw [speedS, parseDec?, h]
    norm_num [DecTok.toRat]

/-- Witness for C7 at "850" ++ " " ++ "Mbps". -/
theorem C7_speed_parse_witness :
    speedS ("850" ++ " " ++ "Mbps") = 850 / 1000 ∧
      speedS "850 Mbps" = 0.85 ∧ speedS "1200 Mbps" = 1.2 :=
  C7_speed_parse "850" "Mbps" 850 (by decide) (by decide)
    (by
      have h : scanDec? "850" = some ⟨false, 850, 0, 0⟩ := by decide
      rw [parseDec?, h]
      norm_num [DecTok.toRat])

/-- A CSV input as classified by the configured reader: either the
whole file fails to tokenize, some other exception occurs on open/read,
or every physical line is classified as a parsed row (`some`) or a
malformed row (`none`). -/
inductive CsvInput where
  | structuralFailure (msg : String)
  | otherFailure (msg : String)
  | content (lines : List (Option Row))

/-- The two exception classes app_tol.py lines 17-22 distinguish:
`pd.errors.ParserError` and every other `Exception`. -/
inductive LoadErr where
  | parserError (msg : String)
  | otherError (msg : String)

/-- Modelled from the spec: `pandas.read_csv` (library code, not under
src/) invoked with sep=',', quotechar='"', engine='python',
on_bad_lines='skip' — "rows that cannot be parsed under the flexible
tokenizer are silently skipped", a structural parse failure of the
whole file raises ParserError, any other failure raises a different
exception. -/
def readCsvSkip : CsvInput → Except LoadErr (List Row)
  | .structuralFailure m => .error (.parserError m)
  | .otherFailure m => .error (.otherError m)
  | .content ls => .ok (ls.filterMap id)

/-- Outcome of module start-up: either the process exits after printing
a diagnostic (carrying no dataset, so no interface is ever served) or
the load succeeds with the parsed rows. -/
inductive LoadOutcome where
  | halted (diagnostic : String)
  | loaded (rows : List Row)
  deriving DecidableEq

/-- app_tol.py lines 7-22: the try/except around the load.  On
ParserError the first diagnostic is printed and `exit()` runs; on any
other exception the second diagnostic is printed and `exit()` runs;
otherwise the rows flow on. -/
def loadDataset (f : CsvInput) : LoadOutcome :=
  match readCsvSkip f with
  | .error (.parserError m) => .halted ("ParserError while loading the dataset: " ++ m)
  | .error (.otherError m) => .halted ("Unexpected error while loading the dataset: " ++ m)
  | .ok rows => .loaded rows

/-- Claim C8: a structural parse failure and every other load exception
produce distinct diagnostics and halt with no partial dataset, while an
individually malformed row is silently skipped and the load succeeds
without it. -/
theorem C8_loader (m : String) (ls : List (Option Row)) :
    loadDataset (.structuralFailure m) =
        .halted ("ParserError while loading the dataset: " ++ m) ∧
      loadDataset (.otherFailure m) =
        .halted ("Unexpected error while loading the dataset: " ++ m) ∧
      ("ParserError while loading the dataset: " ++ m) ≠
        ("Unexpected error while loading the dataset: " ++ m) ∧
      loadDataset (.content ls) = .loaded (ls.filterMap id) := by
  refine ⟨rfl, rfl, ?_, rfl⟩
  intro hcon
  have h := congrArg String.length hcon
  rw [String.length_append, String.length_append] at h
  have h1 : ("ParserError while loading the dataset: ").length = 39 := by decide
  have h2 : ("Unexpected error while loading the dataset: ").length = 44 := by decide
  rw [h1, h2] at h
  omega

/-- A row of the post-preprocessing dataframe as the callbacks see it:
the geography strings plus the four numeric columns the main filter
compares.  A numeric cell is `Option ℚ`: `none` models a float NaN
(every pandas comparison against NaN is false). -/
structure FRow where
  province : String
  district : String
  subdistrict : String
  happyBlock : String
  netAdd : Option ℚ
  pscore : Option ℚ
  portUtil : Option ℚ
  msTrue : Option ℚ
  deriving DecidableEq

/-- Python truthiness of a Dash dropdown value: `None` and the empty
string are falsy, so `if selected_province:` applies no filter for
either. -/
def truthy : Option String → Bool
  | none => false
  | some s => !(s == "")

/-- One `if selected: filtered = filtered[filtered[col] == selected]`
step of the callbacks. -/
def eqFilter (sel : Option String) (proj : FRow → String) (l : List FRow) : List FRow :=
  if truthy sel then l.filter (fun r => proj r == sel.getD "") else l

/-- `series >= q` on a possibly-NaN cell (false for NaN, as in pandas). -/
def geB : Option ℚ → ℚ → Bool
  | none, _ => false
  | some x, q => decide (q ≤ x)

/-- `series <= q` on a possibly-NaN cell (false for NaN). -/
def leB : Option ℚ → ℚ → Bool
  | none, _ => false
  | some x, q => decide (x ≤ q)

/-- The conjunction of the four range masks of update_map
(app_tol.py lines 179-188), each inclusive on both ends. -/
def rangeOk (r : FRow) (na ps pu ms : ℚ × ℚ) : Bool :=
  geB r.netAdd na.1 && leB r.netAdd na.2 &&
    geB r.pscore ps.1 && leB r.pscore ps.2 &&
    geB r.portUtil pu.1 && leB r.portUtil pu.2 &&
    geB r.msTrue ms.1 && leB r.msTrue ms.2

/-- update_map (app_tol.py lines 167-188): the four sequential geography
filters on a copy of the dataframe, then the combined range mask. -/
def updateMap (ds : List FRow) (sp sd ss sh : Option String)
    (na ps pu ms : ℚ × ℚ) : List FRow :=
  (eqFilter sh FRow.happyBlock
      (eqFilter ss FRow.subdistrict
        (eqFilter sd FRow.district
          (eqFilter sp FRow.province ds)))).filter
    (fun r => rangeOk r na ps pu ms)

/-- `pandas.Series.unique`: the distinct values of a column in
first-seen order. -/
def uniqueAux : List String → List String → List String
  | [], _ => []
  | a :: t, seen => if seen.contains a then uniqueAux t seen else a :: uniqueAux t (a :: seen)

/-- Distinct values in first-seen order (`unique()` with no prior
occurrences seen). -/
def uniqueFirst (l : List String) : List String :=
  uniqueAux l []

/-- update_district_filter (app_tol.py lines 121-125): with a truthy
Province the distinct districts of the Province-filtered rows, else the
literal `return []`. -/
def updateDistrictFilter (ds : List FRow) (sp : Option String) : List String :=
  if truthy sp then
    uniqueFirst ((ds.filter (fun r => r.province == sp.getD "")).map FRow.district)
  else []

/-- update_subdistrict_filter (app_tol.py lines 132-138). -/
def updateSubdistrictFilter (ds : List FRow) (sp sd : Option String) : List String :=
  uniqueFirst ((eqFilter sd FRow.district (eqFilter sp FRow.province ds)).map
    FRow.subdistrict)

/-- update_happyblock_filter (app_tol.py lines 146-154). -/
def updateHappyblockFilter (ds : List FRow) (sp sd ss : Option String) : List String :=
  uniqueFirst ((eqFilter ss FRow.subdistrict
      (eqFilter sd FRow.district (eqFilter sp FRow.province ds))).map
    FRow.happyBlock)

/-- Whether a row passes one optional equality constraint: an unset
(falsy) selection matches every row. -/
def eqMatch (sel : Option String) (v : String) : Bool :=
  if truthy sel then v == sel.getD "" else true

theorem eqFilter_eq_filter (sel : Option String) (proj : FRow → String) (l : List FRow) :
    eqFilter sel proj l = l.filter (fun r => eqMatch sel (proj r)) := by
  unfold eqFilter eqMatch
  cases htr : truthy sel with
  | true => simp [htr]
  | false => simp [htr]

theorem updateMap_eq_filter (ds : List FRow) (sp sd ss sh : Option String)
    (na ps pu ms : ℚ × ℚ) :
    updateMap ds sp sd ss sh na ps pu ms =
      ds.filter (fun r =>
        eqMatch sp r.province && eqMatch sd r.district &&
          eqMatch ss r.subdistrict && eqMatch sh r.happyBlock &&
          rangeOk r na ps pu ms) := by
  unfold updateMap
  rw [eqFilter_eq_filter, eqFilter_eq_filter, eqFilter_eq_filter, eqFilter_eq_filter,
    List.filter_filter, List.filter_filter, List.filter_filter, List.filter_filter]
  refine List.filter_congr (fun a _ => ?_)
  cases eqMatch sp a.province <;> cases eqMatch sd a.district <;>
    cases eqMatch ss a.subdistrict <;> cases eqMatch sh a.happyBlock <;>
    cases rangeOk a na ps pu ms <;> rfl

/-- Claim C3: the main filter query returns exactly the rows satisfying
the conjunction of every set equality constraint (an unset constraint
excludes no row) and the four numeric range constraints, each range
inclusive on both ends (value >= lo AND value <= hi). -/
theorem C3_main_filter (ds : List FRow) (sp sd ss sh : Option String)
    (na ps pu ms : ℚ × ℚ) :
    updateMap ds sp sd ss sh na ps pu ms =
      ds.filter (fun r =>
        eqMatch sp r.province && eqMatch sd r.district &&
          eqMatch ss r.subdistrict && eqMatch sh r.happyBlock &&
          rangeOk r na ps pu ms) :=
  updateMap_eq_filter ds sp sd ss sh na ps pu ms

def rowA : FRow :=
  { province := "A", district := "D1", subdistrict := "S1", happyBlock := "H1",
    netAdd := some 0, pscore := some 50, portUtil := some 10, msTrue := some 20 }

def ds4 : List FRow := [rowA]

/-- Counterexample to C4 as stated: on a dataset with district "D1",
the District option query with no Province selected returns the empty
list, not the distinct District values of the full dataset. -/
theorem C4_district_counterexample :
    updateDistrictFilter ds4 none = [] ∧
      uniqueFirst (ds4.map FRow.district) = ["D1"] ∧
      ([] : List String) ≠ ["D1"] := by
  refine ⟨rfl, by decide, by decide⟩

/-- Claim C4 (amended): each option-discovery query applies only the
equality constraints for hierarchy levels strictly above its own and
returns the distinct values of its own column in first-seen order
within the filtered subset; the Sub-district and Happy Block queries
treat unset levels as wildcards, but the District query with no
(truthy) Province selected returns the empty option list instead of
the full dataset's districts. -/
theorem C4_option_queries (ds : List FRow) (sp sd ss : Option String) :
    updateDistrictFilter ds sp =
        (if truthy sp then
          uniqueFirst ((ds.filter (fun r => eqMatch sp r.province)).map FRow.district)
        else []) ∧
      updateSubdistrictFilter ds sp sd =
        uniqueFirst ((ds.filter (fun r =>
          eqMatch sp r.province && eqMatch sd r.district)).map FRow.subdistrict) ∧
      updateHappyblockFilter ds sp sd ss =
        uniqueFirst ((ds.filter (fun r =>
          eqMatch sp r.province && eqMatch sd r.district &&
            eqMatch ss r.subdistrict)).map FRow.happyBlock) := by
  refine ⟨?_, ?_, ?_⟩
  · unfold updateDistrictFilter
    cases htr : truthy sp with
    | true =>
      simp only [if_pos]
      congr 1
      refine congrArg _ (List.filter_congr (fun a _ => ?_))
      unfold eqMatch
      rw [htr]
      simp
    | false => simp
  · unfold updateSubdistrictFilter
    rw [eqFilter_eq_filter, eqFilter_eq_filter, List.filter_filter]
    congr 1
    refine congrArg _ (List.filter_congr (fun a _ => ?_))
    cases eqMatch sp a.province <;> cases eqMatch sd a.district <;> rfl
  · unfold updateHappyblockFilter
    rw [eqFilter_eq_filter, eqFilter_eq_filter, eqFilter_eq_filter,
      List.filter_filter, List.filter_filter]
    congr 1
    refine congrArg _ (List.filter_congr (fun a _ => ?_))
    cases eqMatch sp a.province <;> cases eqMatch sd a.district <;>
      cases eqMatch ss a.subdistrict <;> rfl

theorem filter_eq_nil_of_imp {l : List FRow} {p q : FRow → Bool}
    (h : l.filter p = []) (himp : ∀ r, q r = true → p r = true) :
    l.filter q = [] := by
  rw [List.filter_eq_nil_iff] at h ⊢
  intro a ha hq
  exact h a ha (himp a hq)

/-- The four levels of the geographic selection hierarchy, naming the
level at which a selection is stale. -/
inductive StaleLevel where
  | province
  | district
  | subdistrict
  | happyBlock

/-- The selection control at a hierarchy level. -/
def staleSel (lvl : StaleLevel) (sp sd ss sh : Option String) : Option String :=
  match lvl with
  | .province => sp
  | .district => sd
  | .subdistrict => ss
  | .happyBlock => sh

/-- The conjunction of the equality constraints from the top of the
hierarchy down to and including the given level: a selection at that
level is stale exactly when no row satisfies this conjunction. -/
def hierPred (lvl : StaleLevel) (sp sd ss sh : Option String) : FRow → Bool :=
  match lvl with
  | .province => fun r => eqMatch sp r.province
  | .district => fun r => eqMatch sp r.province && eqMatch sd r.district
  | .subdistrict => fun r =>
      eqMatch sp r.province && eqMatch sd r.district && eqMatch ss r.subdistrict
  | .happyBlock => fun r =>
      eqMatch sp r.province && eqMatch sd r.district && eqMatch ss r.subdistrict &&
        eqMatch sh r.happyBlock

/-- All option-discovery queries strictly below a hierarchy level
return empty option lists. -/
def belowEmpty (lvl : StaleLevel) (ds : List FRow) (sp sd ss : Option String) : Prop :=
  match lvl with
  | .province =>
      updateDistrictFilter ds sp = [] ∧ updateSubdistrictFilter ds sp sd = [] ∧
        updateHappyblockFilter ds sp sd ss = []
  | .district =>
      updateSubdistrictFilter ds sp sd = [] ∧ updateHappyblockFilter ds sp sd ss = []
  | .subdistrict => updateHappyblockFilter ds sp sd ss = []
  | .happyBlock => True

theorem updateDistrictFilter_empty {ds : List FRow} {sp : Option String}
    (h : ds.filter (fun r => eqMatch sp r.province) = []) :
    updateDistrictFilter ds sp = [] := by
  unfold updateDistrictFilter
  cases htr : truthy sp with
  | false => simp
  | true =>
    simp only [if_pos]
    have heq : ds.filter (fun r => r.province == sp.getD "") = [] := by
      rw [← h]
      refine List.filter_congr (fun a _ => ?_)
      unfold eqMatch
      rw [htr]
      simp
    rw [heq]
    rfl

theorem updateSubdistrictFilter_empty {ds : List FRow} {sp sd : Option String}
    (h : ds.filter (fun r => eqMatch sp r.province && eqMatch sd r.district) = []) :
    updateSubdistrictFilter ds sp sd = [] := by
  unfold updateSubdistrictFilter
  rw [eqFilter_eq_filter, eqFilter_eq_filter, List.filter_filter]
  have heq : ds.filter (fun a => eqMatch sd a.district && eqMatch sp a.province) = [] := by
    refine filter_eq_nil_of_imp h (fun r hq => ?_)
    simp only [Bool.and_eq_true] at hq ⊢
    tauto
  rw [heq]
  rfl

theorem updateHappyblockFilter_empty {ds : List FRow} {sp sd ss : Option String}
    (h : ds.filter (fun r => eqMatch sp r.province && eqMatch sd r.district &&
        eqMatch ss r.subdistrict) = []) :
    updateHappyblockFilter ds sp sd ss = [] := by
  unfold updateHappyblockFilter
  rw [eqFilter_eq_filter, eqFilter_eq_filter, eqFilter_eq_filter,
    List.filter_filter, List.filter_filter]
  have heq : ds.filter (fun a => eqMatch ss a.subdistrict && eqMatch sd a.district &&
      eqMatch sp a.province) = [] := by
    refine filter_eq_nil_of_imp h (fun r hq => ?_)
    simp only [Bool.and_eq_true] at hq ⊢
    tauto
  rw [heq]
  rfl

theorem updateMap_empty {ds : List FRow} {sp sd ss sh : Option String}
    {na ps pu ms : ℚ × ℚ}
    (h : ds.filter (fun r => eqMatch sp r.province && eqMatch sd r.district &&
        eqMatch ss r.subdistrict && eqMatch sh r.happyBlock) = []) :
    updateMap ds sp sd ss sh na ps pu ms = [] := by
  rw [updateMap_eq_filter]
  refine filter_eq_nil_of_imp h (fun r hq => ?_)
  simp only [Bool.and_eq_true] at hq ⊢
  tauto

/-- Claim C5: whenever some equality constraint is set to a value not
present under the constraints above it in the hierarchy (a stale
selection at any level), the main filter query returns the empty
result set without error, and every dependent option-discovery query
below the stale level returns the empty option list. -/
theorem C5_stale_selection (ds : List FRow) (sp sd ss sh : Option String)
    (na ps pu ms : ℚ × ℚ) (lvl : StaleLevel)
    (_ht : truthy (staleSel lvl sp sd ss sh) = true)
    (hstale : ds.filter (hierPred lvl sp sd ss sh) = []) :
    updateMap ds sp sd ss sh na ps pu ms = [] ∧ belowEmpty lvl ds sp sd ss := by
  cases lvl with
  | province =>
    have h1 : ds.filter (fun r => eqMatch sp r.province) = [] := hstale
    have h2 : ds.filter (fun r => eqMatch sp r.province && eqMatch sd r.district) = [] := by
      refine filter_eq_nil_of_imp h1 (fun r hq => ?_)
      simp only [Bool.and_eq_true] at hq ⊢
      tauto
    have h3 : ds.filter (fun r => eqMatch sp r.province && eqMatch sd r.district &&
        eqMatch ss r.subdistrict) = [] := by
      refine filter_eq_nil_of_imp h1 (fun r hq => ?_)
      simp only [Bool.and_eq_true] at hq ⊢
      tauto
    have h4 : ds.filter (fun r => eqMatch sp r.province && eqMatch sd r.district &&
        eqMatch ss r.subdistrict && eqMatch sh r.happyBlock) = [] := by
      refine filter_eq_nil_of_imp h1 (fun r hq => ?_)
      simp only [Bool.and_eq_true] at hq ⊢
      tauto
    exact ⟨updateMap_empty h4, updateDistrictFilter_empty h1,
      updateSubdistrictFilter_empty h2, updateHappyblockFilter_empty h3⟩
  | district =>
    have h2 : ds.filter (fun r => eqMatch sp r.province && eqMatch sd r.district) = [] :=
      hstale
    have h3 : ds.filter (fun r => eqMatch sp r.province && eqMatch sd r.district &&
        eqMatch ss r.subdistrict) = [] := by
      refine filter_eq_nil_of_imp h2 (fun r hq => ?_)
      simp only [Bool.and_eq_true] at hq ⊢
      tauto
    have h4 : ds.filter (fun r => eqMatch sp r.province && eqMatch sd r.district &&
        eqMatch ss r.subdistrict && eqMatch sh r.happyBlock) = [] := by
      refine filter_eq_nil_of_imp h2 (fun r hq => ?_)
      simp only [Bool.and_eq_true] at hq ⊢
      tauto
    exact ⟨updateMap_empty h4, updateSubdistrictFilter_empty h2,
      updateHappyblockFilter_empty h3⟩
  | subdistrict =>
    have h3 : ds.filter (fun r => eqMatch sp r.province && eqMatch sd r.district &&
        eqMatch ss r.subdistrict) = [] := hstale
    have h4 : ds.filter (fun r => eqMatch sp r.province && eqMatch sd r.district &&
        eqMatch ss r.subdistrict && eqMatch sh r.happyBlock) = [] := by
      refine filter_eq_nil_of_imp h3 (fun r hq => ?_)
      simp only [Bool.and_eq_true] at hq ⊢
      tauto
    exact ⟨updateMap_empty h4, updateHappyblockFilter_empty h3⟩
  | happyBlock =>
    have h4 : ds.filter (fun r => eqMatch sp r.province && eqMatch sd r.district &&
        eqMatch ss r.subdistrict && eqMatch sh r.happyBlock) = [] := hstale
    exact ⟨updateMap_empty h4, trivial⟩

def rowB : FRow :=
  { province := "B", district := "X", subdistrict := "S9", happyBlock := "H9",
    netAdd := some 0, pscore := some 50, portUtil := some 10, msTrue := some 20 }

def ds5 : List FRow := [rowB]

/-- Witness for C5 at a stale District selection: Province "A" is
selected while District "X" only exists under Province "B". -/
theorem C5_stale_selection_witness :
    updateMap ds5 (some "A") (some "X") none none (0, 0) (0, 100) (0, 100) (0, 100) = [] ∧
      belowEmpty StaleLevel.district ds5 (some "A") (some "X") none :=
  C5_stale_selection ds5 (some "A") (some "X") none none (0, 0) (0, 100) (0, 100) (0, 100)
    StaleLevel.district (by decide) (by decide)

/-- Claim C10: a row whose Net Add, Potential Score, Port Utilization
or Market Share True cell is NaN is excluded from the main filter's
result for every range setting — in particular at the default
full-domain bounds, so a default range is not the absence of a
constraint. -/
theorem C10_nan_excluded (ds : List FRow) (sp sd ss sh : Option String)
    (na ps pu ms : ℚ × ℚ) (r : FRow) (_hr : r ∈ ds)
    (hnan : r.netAdd = none ∨ r.pscore = none ∨ r.portUtil = none ∨ r.msTrue = none) :
    r ∉ updateMap ds sp sd ss sh na ps pu ms := by
  rw [updateMap_eq_filter]
  intro hmem
  have hpass := (List.mem_filter.mp hmem).2
  rcases hnan with h | h | h | h <;>
    simp [rangeOk, geB, leB, h] at hpass

def rowNaN : FRow :=
  { province := "A", district := "D1", subdistrict := "S1", happyBlock := "H1",
    netAdd := none, pscore := some 50, portUtil := some 10, msTrue := some 20 }

def ds10 : List FRow := [rowNaN]

/-- Witness for C10: a row with NaN Net Add is excluded at full-domain
bounds. -/
theorem C10_nan_excluded_witness :
    rowNaN ∉ updateMap ds10 none none none none (-1000, 1000) (0, 100) (0, 100) (0, 100) :=
  C10_nan_excluded ds10 none none none none (-1000, 1000) (0, 100) (0, 100) (0, 100) rowNaN
    (by decide) (Or.inl rfl)

/-- One user interaction handled by a callback: the three
option-discovery queries and the main map query, with their selection
and range arguments. -/
inductive Query where
  | districtQ (sp : Option String)
  | subdistrictQ (sp sd : Option String)
  | happyblockQ (sp sd ss : Option String)
  | mapQ (sp sd ss sh : Option String) (na ps pu ms : ℚ × ℚ)

/-- Result of one callback: an option list or a row subset. -/
inductive QueryResult where
  | options (vals : List String)
  | rows (subset : List FRow)

/-- One callback execution against the module-level dataframe `data`:
it computes a fresh value from the dataframe and returns the dataframe
as it found it — no callback in app_tol.py assigns to `data`; each
works on `data.copy()` or on fresh filtered frames. -/
def runQuery (q : Query) (s : List FRow) : QueryResult × List FRow :=
  match q with
  | .districtQ sp => (.options (updateDistrictFilter s sp), s)
  | .subdistrictQ sp sd => (.options (updateSubdistrictFilter s sp sd), s)
  | .happyblockQ sp sd ss => (.options (updateHappyblockFilter s sp sd ss), s)
  | .mapQ sp sd ss sh na ps pu ms => (.rows (updateMap s sp sd ss sh na ps pu ms), s)

/-- A whole interaction session: the callbacks run one after another,
each seeing the dataframe the previous one left behind. -/
def runQueries : List Query → List FRow → List FRow
  | [], s => s
  | q :: t, s => runQueries t (runQuery q s).2

/-- Claim C9: after any sequence of filter and option-discovery
queries the shared base dataset — every row with every column — is
unchanged; each query only produces a fresh subset. -/
theorem C9_no_mutation (qs : List Query) (s : List FRow) :
    runQueries qs s = s := by
  induction qs generalizing s with
  | nil => rfl
  | cons q t ih =>
    have hq : (runQuery q s).2 = s := by cases q <;> rfl
    rw [runQueries, hq]
    exact ih s
